import Mathlib

set_option maxRecDepth 100000

/-!
Verification development for the Brenntag Talkwalker batch-tagging tool
(`src/main.py`).  Python strings are modelled as `List Char` (one entry per
code point); `pandas` missing values (`NaN` / absent column entries) are
modelled with `Option`.  External collaborators — the YouTube transcript
backend, the Gemini classifier backend, the Excel reader and the log file —
are passed in as explicit parameters, with `Option`-valued results standing
for the "exception caught, degraded to None" pattern of the source.
-/

namespace Brenntag

/-- Python strings, modelled as lists of code points. -/
abbrev Str := List Char

/-- Python `str.strip()`: drop whitespace from both ends. -/
def pyStrip (l : Str) : Str :=
  ((l.dropWhile Char.isWhitespace).reverse.dropWhile Char.isWhitespace).reverse

/-- Python `str.lower()`, applied code point by code point. -/
def pyLower (l : Str) : Str := l.map Char.toLower

/-- Python `needle in hay` substring test. -/
def pyContainsSub (hay needle : Str) : Bool :=
  needle.isPrefixOf hay ||
    match hay with
    | [] => false
    | _ :: t => pyContainsSub t needle

/-- Python `s.strip("/")`: drop `/` characters from both ends. -/
def stripSlashes (l : Str) : Str :=
  ((l.dropWhile (· = '/')).reverse.dropWhile (· = '/')).reverse

/-- Lexicographic `≤` on code-point lists, matching Python string comparison
as used by `sorted`. -/
def lexLeb : Str → Str → Bool
  | [], _ => true
  | _ :: _, [] => false
  | a :: as, b :: bs => if a < b then true else if a = b then lexLeb as bs else false

/-- The propositional form of `lexLeb`, used as the sort order on tags. -/
def strLe (a b : Str) : Prop := lexLeb a b = true

instance : DecidableRel strLe := fun a b => inferInstanceAs (Decidable (lexLeb a b = true))

theorem lexLeb_total (x y : Str) : lexLeb x y = true ∨ lexLeb y x = true := by
  induction x generalizing y with
  | nil => left; rfl
  | cons a as ih =>
    cases y with
    | nil => right; rfl
    | cons b bs =>
      rcases lt_trichotomy a b with h | h | h
      · left; simp [lexLeb, h]
      · subst h
        rcases ih bs with h2 | h2
        · left; simp [lexLeb, h2]
        · right; simp [lexLeb, h2]
      · right; simp [lexLeb, h]

theorem lexLeb_antisymm {x y : Str} (hxy : lexLeb x y = true) (hyx : lexLeb y x = true) :
    x = y := by
  induction x generalizing y with
  | nil =>
    cases y with
    | nil => rfl
    | cons b bs => simp [lexLeb] at hyx
  | cons a as ih =>
    cases y with
    | nil => simp [lexLeb] at hxy
    | cons b bs =>
      rcases lt_trichotomy a b with h | h | h
      · simp [lexLeb, h, lt_asymm h, ne_of_gt h] at hyx
      · subst h
        simp only [lexLeb, lt_irrefl, if_false, if_pos rfl, if_neg] at hxy hyx
        exact congrArg (a :: ·) (ih hxy hyx)
      · simp [lexLeb, h, lt_asymm h, ne_of_gt h] at hxy

theorem lexLeb_trans {x y z : Str} (hxy : lexLeb x y = true) (hyz : lexLeb y z = true) :
    lexLeb x z = true := by
  induction x generalizing y z with
  | nil => rfl
  | cons a as ih =>
    cases y with
    | nil => simp [lexLeb] at hxy
    | cons b bs =>
      cases z with
      | nil => simp [lexLeb] at hyz
      | cons c cs =>
        rcases lt_trichotomy a b with hab | hab | hab
        · rcases lt_trichotomy b c with hbc | hbc | hbc
          · simp [lexLeb, lt_trans hab hbc]
          · subst hbc; simp [lexLeb, hab]
          · simp [lexLeb, lt_asymm hbc, ne_of_gt hbc] at hyz
        · subst hab
          rcases lt_trichotomy a c with hac | hac | hac
          · simp [lexLeb, hac]
          · subst hac
            simp only [lexLeb, lt_irrefl, if_false, if_pos rfl, if_neg] at hxy hyz ⊢
            exact ih hxy hyz
          · simp [lexLeb, lt_asymm hac, ne_of_gt hac] at hyz
        · simp [lexLeb, lt_asymm hab, ne_of_gt hab] at hxy

instance : IsTrans Str strLe := ⟨fun _ _ _ => lexLeb_trans⟩
instance : IsAntisymm Str strLe := ⟨fun _ _ => lexLeb_antisymm⟩
instance : IsTotal Str strLe := ⟨lexLeb_total⟩

/-! ## Configuration constants of `src/main.py` -/

def BATCH_SIZE : Nat := 5
def MAX_RETRIES : Nat := 3
def MAX_TRANSCRIPT_CHARS : Nat := 500

/-- The fixed allow-list `ALLOWED_TAGS` of `src/main.py`. -/
def ALLOWED_TAGS : List Str :=
  ["agriculture".data, "animal nutrition".data, "asphalt".data, "automotive".data,
   "ceramics".data, "cleaning".data, "coatings & construction".data, "composites".data,
   "cosmetics".data, "def".data, "electronics".data, "flavors & fragrances".data,
   "food & nutrition".data, "hi&i".data, "industrial sales & services".data,
   "lubricants".data, "marine emissions solutions".data, "metal surface treatment".data,
   "minerals".data, "mining".data, "oil & gas".data, "personal care".data,
   "pharmaceuticals".data, "polymers".data, "polyurethanes".data, "pulp & paper".data,
   "refrigeration".data, "rubber".data, "solvents".data, "surface technology".data,
   "textile".data, "water treatment".data, "wax".data, "acquisition".data,
   "annual report".data, "application & development center".data, "awards".data,
   "brand".data, "ceo".data, "certification".data, "charity".data,
   "customer experience".data, "distribution agreement".data, "donation".data,
   "educational resources".data, "employer branding".data, "event".data,
   "financial reporting".data, "formulations".data, "holidays".data, "interview".data,
   "podcast".data, "press release".data, "products & services".data, "safety".data,
   "service excellence".data, "sponsoring".data, "sustainability".data, "trends".data,
   "ukraine".data, "webinar".data]

/-- One value of a parsed JSON label list: either a JSON string or any
non-string JSON value (number, object, …), which the validator discards. -/
inductive JsonVal where
  | str (s : Str)
  | other
deriving DecidableEq

/-- Strict lexicographic order on `Str`. -/
def strLt (a b : Str) : Prop := lexLeb a b = true ∧ a ≠ b

/-- Ordered insert that skips an element already present; building block of
the Python `sorted(set(...))` idiom. -/
def insortND (a : Str) : List Str → List Str
  | [] => [a]
  | b :: bs =>
    if a = b then b :: bs
    else if lexLeb a b then a :: b :: bs
    else b :: insortND a bs

/-- Python `sorted(set(l))`: the strictly sorted list of the distinct
elements of `l`. -/
def pySortedSet (l : List Str) : List Str := l.foldr insortND []

/-- The sorted duplicate-free list of surviving tags produced inside
`_validate_and_format_tags`: Python `sorted(set(...))` of the lower-cased,
trimmed labels that are members of `ALLOWED_TAGS`. -/
def validTags (tags_list : List JsonVal) : List Str :=
  let strs := tags_list.filterMap (fun t => match t with
    | .str s => some (pyStrip (pyLower s))
    | .other => none)
  let kept := strs.filter (fun t => ALLOWED_TAGS.contains t)
  pySortedSet kept

/-- `_validate_and_format_tags` of `src/main.py`: discard non-strings,
lower-case and trim, keep allow-list members, de-duplicate, sort, prefix
each tag with `Brenntag/` and join with commas. -/
def _validate_and_format_tags (tags_list : List JsonVal) : Str :=
  List.intercalate [','] ((validTags tags_list).map (fun t => "Brenntag/".data ++ t))

/-! ## Lemmas about the `sorted(set(...))` idiom -/

theorem mem_insortND {x a : Str} {l : List Str} :
    x ∈ insortND a l ↔ x = a ∨ x ∈ l := by
  induction l with
  | nil => simp [insortND]
  | cons b bs ih =>
    by_cases hab : a = b
    · subst hab
      simp only [insortND, if_true, eq_self_iff_true, if_pos, List.mem_cons]
      tauto
    · by_cases hle : lexLeb a b
      · simp only [insortND, if_neg hab, if_pos hle, List.mem_cons]
      · simp only [insortND, if_neg hab, if_neg hle, List.mem_cons, ih]
        tauto

theorem strLt_trans {x y z : Str} (h1 : strLt x y) (h2 : strLt y z) : strLt x z := by
  refine ⟨lexLeb_trans h1.1 h2.1, ?_⟩
  rintro rfl
  exact h2.2 (lexLeb_antisymm h2.1 h1.1)

theorem pairwise_insortND {a : Str} {l : List Str}
    (hl : l.Pairwise strLt) : (insortND a l).Pairwise strLt := by
  induction l with
  | nil => simp [insortND]
  | cons b bs ih =>
    rcases List.pairwise_cons.mp hl with ⟨hb, hbs⟩
    by_cases hab : a = b
    · subst hab; simpa [insortND] using hl
    · by_cases hle : lexLeb a b
      · simp only [insortND, if_neg hab, if_pos hle]
        refine List.pairwise_cons.mpr ⟨?_, hl⟩
        intro x hx
        rcases List.mem_cons.mp hx with rfl | hx
        · exact ⟨hle, hab⟩
        · exact strLt_trans ⟨hle, hab⟩ (hb x hx)
      · simp only [insortND, if_neg hab, if_neg hle]
        refine List.pairwise_cons.mpr ⟨?_, ih hbs⟩
        intro x hx
        rcases mem_insortND.mp hx with hxa | hx
        · rw [hxa]
          rcases lexLeb_total b a with h | h
          · exact ⟨h, fun hba => hab hba.symm⟩
          · exact ((by simpa using hle : ¬lexLeb a b = true) h).elim
        · exact hb x hx

theorem mem_pySortedSet {x : Str} {l : List Str} :
    x ∈ pySortedSet l ↔ x ∈ l := by
  induction l with
  | nil => simp [pySortedSet]
  | cons b bs ih =>
    simp only [pySortedSet, List.foldr_cons, mem_insortND, List.mem_cons]
    rw [show bs.foldr insortND [] = pySortedSet bs from rfl, ih]

theorem pairwise_pySortedSet (l : List Str) : (pySortedSet l).Pairwise strLt := by
  induction l with
  | nil => simp [pySortedSet]
  | cons b bs ih => exact pairwise_insortND ih

theorem pairwise_strLt_ext :
    ∀ {l₁ l₂ : List Str}, l₁.Pairwise strLt → l₂.Pairwise strLt →
      (∀ x, x ∈ l₁ ↔ x ∈ l₂) → l₁ = l₂
  | [], [], _, _, _ => rfl
  | [], b :: bs, _, _, hm => absurd ((hm b).mpr (List.mem_cons_self b bs)) (List.not_mem_nil b)
  | a :: as, [], _, _, hm => absurd ((hm a).mp (List.mem_cons_self a as)) (List.not_mem_nil a)
  | a :: as, b :: bs, h1, h2, hm => by
    rcases List.pairwise_cons.mp h1 with ⟨ha, has⟩
    rcases List.pairwise_cons.mp h2 with ⟨hb, hbs⟩
    have hab : a = b := by
      rcases List.mem_cons.mp ((hm a).mp (List.mem_cons_self a as)) with h | hmem
      · exact h
      · rcases List.mem_cons.mp ((hm b).mpr (List.mem_cons_self b bs)) with h | hmem2
        · exact h.symm
        · have h1' := hb a hmem
          have h2' := ha b hmem2
          exact absurd (lexLeb_antisymm h2'.1 h1'.1) h2'.2
    subst hab
    have htail : ∀ x, x ∈ as ↔ x ∈ bs := by
      intro x
      constructor
      · intro hx
        rcases List.mem_cons.mp ((hm x).mp (List.mem_cons.mpr (Or.inr hx))) with rfl | h
        · exact absurd (ha x hx).2 (by simp)
        · exact h
      · intro hx
        rcases List.mem_cons.mp ((hm x).mpr (List.mem_cons.mpr (Or.inr hx))) with rfl | h
        · exact absurd (hb x hx).2 (by simp)
        · exact h
    exact congrArg (a :: ·) (pairwise_strLt_ext has hbs htail)

theorem pySortedSet_perm {l l' : List Str} (h : l.Perm l') :
    pySortedSet l = pySortedSet l' :=
  pairwise_strLt_ext (pairwise_pySortedSet l) (pairwise_pySortedSet l')
    (fun x => by rw [mem_pySortedSet, mem_pySortedSet]; exact h.mem_iff)

theorem nodup_pySortedSet (l : List Str) : (pySortedSet l).Nodup :=
  (pairwise_pySortedSet l).imp (fun h => h.2)

/-! ## URL helpers (`_normalize_url`, `_get_video_id`, transcripts) -/

/-- `_normalize_url` of `src/main.py`.  `none` models a pandas `NaN` /
missing value; the empty string is also mapped to the empty result.  The
trimmed string loses exactly one trailing `/` when it has one. -/
def _normalize_url (url : Option Str) : Str :=
  match url with
  | none => []
  | some u =>
    if u = [] then []
    else
      let s := pyStrip u
      if s.getLast? = some '/' then s.dropLast else s

/-- Result of Python `urllib.parse.urlparse` restricted to the fields the
source reads.  Modelled from the documented stdlib behavior on
`scheme://netloc/path?query#fragment` inputs: the netloc is everything
between `://` and the first `/`, `?` or `#`; the path runs to the first `?`
or `#`; the query is what follows `?` (before any `#`). -/
structure UrlParts where
  netloc : Str
  path : Str
  query : Str
deriving DecidableEq

/-- Drop a leading `http://` or `https://` scheme if present. -/
def dropScheme (s : Str) : Str :=
  if "https://".data.isPrefixOf s then s.drop 8
  else if "http://".data.isPrefixOf s then s.drop 7
  else s

/-- Modelled Python `urlparse` for the http(s) URLs built by
`_get_video_id` (see `UrlParts`). -/
def urlparse (s : Str) : UrlParts :=
  let rest := dropScheme s
  let netloc := rest.takeWhile (fun c => !(c = '/' || c = '?' || c = '#'))
  let after := rest.dropWhile (fun c => !(c = '/' || c = '?' || c = '#'))
  let noFrag := after.takeWhile (fun c => c ≠ '#')
  let path := noFrag.takeWhile (fun c => c ≠ '?')
  let query := (noFrag.dropWhile (fun c => c ≠ '?')).drop 1
  ⟨netloc, path, query⟩

/-- Modelled Python `parse_qs(query).get("v", [None])[0]`: the first
`v=...` pair of the query string with a non-blank value (`parse_qs` drops
blank values by default). -/
def queryParamV (q : Str) : Option Str :=
  (q.splitOn '&').findSome? (fun piece =>
    let k := piece.takeWhile (· ≠ '=')
    let v := (piece.dropWhile (· ≠ '=')).drop 1
    if k = "v".data ∧ v ≠ [] then some v else none)

/-- `_get_video_id` of `src/main.py`: accept the `youtu.be` short-link
shape (path segment) and the `youtube.com` query-parameter shape. -/
def _get_video_id (url : Option Str) : Option Str :=
  match url with
  | none => none
  | some u =>
    if u = [] then none
    else
      let s0 := pyStrip u
      let s := if s0 ≠ [] ∧ ¬("http://".data.isPrefixOf s0 ∨ "https://".data.isPrefixOf s0)
        then "https://".data ++ s0 else s0
      let parsed := urlparse s
      if pyContainsSub parsed.netloc "youtu.be".data then
        (if stripSlashes parsed.path = [] then none else some (stripSlashes parsed.path))
      else if pyContainsSub parsed.netloc "youtube.com".data then
        queryParamV parsed.query
      else none

/-- `_fetch_youtube_transcript` of `src/main.py`.  The external transcript
backend is the parameter `api`: it maps a video id to the ordered snippet
texts, with `none` standing for any raised exception (which the source
catches and converts to `None`).  The snippets are joined with spaces and
trimmed; a blank result degrades to `none`. -/
def _fetch_youtube_transcript (api : Str → Option (List Str)) (url : Option Str) : Option Str :=
  match _get_video_id url with
  | none => none
  | some vid =>
    match api vid with
    | none => none
    | some segs =>
      let joined := pyStrip (List.intercalate [' '] segs)
      if joined = [] then none else some joined

/-! ## Records and the Content Selector -/

/-- One row of the input dataset, restricted to the columns
`get_content_for_tagging` reads.  `none` models a pandas `NaN` / missing
value. -/
structure Record where
  url : Option Str
  content : Option Str
  title : Option Str
deriving DecidableEq

/-- `get_content_for_tagging` of `src/main.py`: non-empty `content` wins;
otherwise a YouTube row gets trimmed title plus transcript truncated to
`MAX_TRANSCRIPT_CHARS`, newline-joined with empty parts dropped. -/
def get_content_for_tagging (api : Str → Option (List Str)) (row : Record) : Str :=
  let url : Str := row.url.getD []
  let content_empty : Bool :=
    match row.content with
    | none => true
    | some c => (pyStrip c).isEmpty
  let is_youtube : Bool := pyContainsSub (pyLower url) "youtube".data
  if is_youtube && content_empty then
    let title : Str := match row.title with
      | none => []
      | some t => pyStrip t
    let transcript := _fetch_youtube_transcript api (some url)
    let transcript_part : Str := match transcript with
      | none => []
      | some t => t.take MAX_TRANSCRIPT_CHARS
    let parts := [title, transcript_part].filter (fun p => !p.isEmpty)
    List.intercalate ['\n'] parts
  else
    match row.content with
    | none => []
    | some c => pyStrip c

/-! ## Dedupe ledger -/

/-- `_load_processed_urls` of `src/main.py`.  The argument models the
`url` column of the log file: `none` stands for a missing file, a missing
`url` column, or an unreadable file (all of which the source degrades to
the empty set), and inner `none`s are `NaN` cells removed by `dropna`.
Only non-empty normalized URLs enter the set. -/
def _load_processed_urls (log : Option (List (Option Str))) : Finset Str :=
  match log with
  | none => ∅
  | some col =>
    (((col.filterMap id).map (fun u => _normalize_url (some u))).filter
      (fun s => !s.isEmpty)).toFinset

/-- The startup credential check of `src/main.py` (lines 26-28): the run
aborts before any processing iff the stripped `GEMINI_API_KEY` is empty. -/
def startupCheck (env_key : Option Str) : Except Str Unit :=
  let key := pyStrip (env_key.getD [])
  if key.isEmpty then Except.error "GEMINI_API_KEY fehlt. .env prüfen.".data
  else Except.ok ()

/-! ## Batch Orchestrator (`main`) -/

/-- State of the FILTERING loop of `main` (lines 222-235):
the eligible queue `rows_to_process` of `(index, content, normalized url)`
triples, the skip counter and the seen-URL set. -/
structure FilterState where
  rows_to_process : List (Nat × Str × Str)
  skipped : Nat
  processed_urls : Finset Str

/-- One iteration of the FILTERING loop of `main`: skip rows without a
usable URL, count rows whose normalized URL is already known, and enqueue
the rest while marking the URL as seen. -/
def filterStep (api : Str → Option (List Str)) (st : FilterState) (p : Nat × Record) :
    FilterState :=
  match p.2.url with
  | none => st
  | some u =>
    if (pyStrip u).isEmpty then st
    else
      let url_str := _normalize_url (some u)
      if url_str.isEmpty ∨ url_str ∈ st.processed_urls then
        if ¬url_str.isEmpty ∧ url_str ∈ st.processed_urls then
          { st with skipped := st.skipped + 1 }
        else st
      else
        { rows_to_process :=
            st.rows_to_process ++ [(p.1, get_content_for_tagging api p.2, url_str)],
          skipped := st.skipped,
          processed_urls := insert url_str st.processed_urls }

/-- The whole FILTERING loop, folded over the indexed input rows with the
ledger-seeded set as start. -/
def runFilter (api : Str → Option (List Str)) (P0 : Finset Str)
    (rows : List (Nat × Record)) : FilterState :=
  rows.foldl (filterStep api) ⟨[], 0, P0⟩

/-- Fuel-driven worker for `chunksOf`; the fuel is an upper bound on the
list length, so the slicing below never exhausts it. -/
def chunksGo (k : Nat) : Nat → List α → List (List α)
  | _, [] => []
  | 0, _ :: _ => []
  | fuel + 1, x :: xs => (x :: xs).take k :: chunksGo k fuel ((x :: xs).drop k)

/-- Contiguous slices `l[i : i + size]` as produced by
`range(0, len(l), size)`; `chunksOf 0 _` is unused (the batch size is 5). -/
def chunksOf (k : Nat) (l : List α) : List (List α) := chunksGo k l.length l

/-- A parsed classifier response: the JSON object mapping stringified
record ids to raw label lists. -/
abbrev Response := List (Str × List JsonVal)

/-- Python `str(n)` for the natural row index. -/
def natToStr (n : Nat) : Str := Nat.toDigits 10 n

/-- Observable effects of the BATCH_PROCESSING loop: the `tags_ai` column
writes, the appended ledger rows `(url, generated_tags)` in order, and the
`any_tagged` flag that gates the output file. -/
structure RunState where
  tagWrites : List (Nat × Str)
  ledger : List (Str × Str)
  any_tagged : Bool
deriving DecidableEq

/-- The per-record body of the success branch of `main` (lines 262-267):
look up the raw labels by stringified id (missing id gives `[]`), validate,
write the tag string to the output column and append a ledger row. -/
def recordStep (resp : Response) (st : RunState) (item : Nat × Str × Str) : RunState :=
  let raw := (resp.lookup (natToStr item.1)).getD []
  let final := _validate_and_format_tags raw
  { tagWrites := st.tagWrites ++ [(item.1, final)],
    ledger := st.ledger ++ [(item.2.2, final)],
    any_tagged := st.any_tagged }

/-- One batch of the BATCH_PROCESSING loop of `main` (lines 246-269).
`attempts a` is the parsed result of `_process_batch` on retry attempt `a`
(`none` models any caught transport/parse error or empty body); the loop
keeps the first non-`none` result of `MAX_RETRIES` attempts.  The success
branch is guarded by Python truthiness `if results:`, so an empty mapping
is treated like a failure. -/
def processOneBatch (attempts : Nat → Option Response)
    (batch : List (Nat × Str × Str)) (st : RunState) : RunState :=
  match List.findSome? attempts (List.range MAX_RETRIES) with
  | none => st
  | some resp =>
    if resp.isEmpty then st
    else batch.foldl (recordStep resp) { st with any_tagged := true }

/-- The BATCH_PROCESSING loop over all batches; `oracle i a` is the parsed
classifier result for batch `i`, attempt `a`. -/
def runBatches (oracle : Nat → Nat → Option Response)
    (batches : List (List (Nat × Str × Str))) : RunState :=
  batches.enum.foldl (fun st p => processOneBatch (oracle p.1) p.2 st) ⟨[], [], false⟩

/-- Result of one whole run of `main` after the startup check: the filter
state, the batch-processing effects, and whether an output file is
written (`any_tagged` gates the export; an empty queue returns early). -/
structure RunResult where
  filterState : FilterState
  runState : RunState
  outputWritten : Bool

/-- `main` of `src/main.py` from ledger load to export decision, with the
external collaborators as parameters: `api` the transcript backend,
`oracle` the classifier backend, `log` the `url` column of the log file,
`rows` the input dataset in row order. -/
def mainRun (api : Str → Option (List Str)) (oracle : Nat → Nat → Option Response)
    (log : Option (List (Option Str))) (rows : List Record) : RunResult :=
  let processed := _load_processed_urls log
  let fs := runFilter api processed rows.enum
  if fs.rows_to_process.isEmpty then ⟨fs, ⟨[], [], false⟩, false⟩
  else
    let st := runBatches oracle (chunksOf BATCH_SIZE fs.rows_to_process)
    ⟨fs, st, st.any_tagged⟩

/-! ## Helper lemmas -/

theorem chunksGo_flatten {α : Type _} (k fuel : Nat) (hk : 0 < k) :
    ∀ l : List α, l.length ≤ fuel → (chunksGo k fuel l).flatten = l := by
  induction fuel with
  | zero =>
    intro l h
    have hl : l = [] := List.length_eq_zero.mp (Nat.le_zero.mp h)
    subst hl
    simp [chunksGo]
  | succ n ih =>
    intro l h
    cases l with
    | nil => simp [chunksGo]
    | cons x xs =>
      have hlen : ((x :: xs).drop k).length ≤ n := by
        simp only [List.length_drop, List.length_cons]
        simp only [List.length_cons] at h
        omega
      cases k with
      | zero => exact absurd hk (by simp)
      | succ m =>
        simp only [chunksGo, List.flatten_cons]
        rw [ih _ hlen, List.take_append_drop]

theorem chunksOf_flatten {α : Type _} (k : Nat) (hk : 0 < k) (l : List α) :
    (chunksOf k l).flatten = l :=
  chunksGo_flatten k l.length hk l le_rfl

theorem strip_ne_of_normalize_ne {u : Str} (h : _normalize_url (some u) ≠ []) :
    (pyStrip u).isEmpty = false := by
  by_cases hu : u = []
  · exact absurd (by simp [_normalize_url, hu]) h
  · by_cases hs : pyStrip u = []
    · exact absurd (by simp [_normalize_url, hu, hs]) h
    · simpa using hs

/-- The invariant of the FILTERING loop: enqueued URLs are pairwise
distinct, all marked as seen, never from the initial ledger set, and the
ledger set stays inside the seen set. -/
def FilterInv (P0 : Finset Str) (st : FilterState) : Prop :=
  (st.rows_to_process.map (fun t => t.2.2)).Nodup ∧
  (∀ u ∈ st.rows_to_process.map (fun t => t.2.2), u ∈ st.processed_urls) ∧
  P0 ⊆ st.processed_urls ∧
  (∀ u ∈ st.rows_to_process.map (fun t => t.2.2), u ∉ P0)

theorem filterStep_inv (api : Str → Option (List Str)) {P0 : Finset Str}
    {st : FilterState} (p : Nat × Record) (h : FilterInv P0 st) :
    FilterInv P0 (filterStep api st p) := by
  rcases p with ⟨i, r⟩
  rcases h with ⟨hnd, hmem, hsub, hout⟩
  rcases hu : r.url with _ | u
  · exact (by simp only [filterStep, hu]; exact ⟨hnd, hmem, hsub, hout⟩)
  · simp only [filterStep, hu]
    split_ifs with h1 h2 h3
    · exact ⟨hnd, hmem, hsub, hout⟩
    · exact ⟨hnd, hmem, hsub, hout⟩
    · exact ⟨hnd, hmem, hsub, hout⟩
    · push_neg at h2
      rcases h2 with ⟨hne, hnotin⟩
      have hnotin2 : _normalize_url (some u) ∉ st.rows_to_process.map (fun t => t.2.2) :=
        fun hin => hnotin (hmem _ hin)
      refine ⟨?_, ?_, ?_, ?_⟩
      · simp only [List.map_append, List.map_cons, List.map_nil]
        exact List.nodup_append.mpr ⟨hnd, List.nodup_singleton _,
          fun a ha hb => by
            rcases List.mem_singleton.mp hb with rfl
            exact hnotin2 ha⟩
      · intro v hv
        simp only [List.map_append, List.map_cons, List.map_nil, List.mem_append,
          List.mem_singleton] at hv
        rcases hv with hv | rfl
        · exact Finset.mem_insert_of_mem (hmem _ hv)
        · exact Finset.mem_insert_self _ _
      · exact hsub.trans (Finset.subset_insert _ _)
      · intro v hv
        simp only [List.map_append, List.map_cons, List.map_nil, List.mem_append,
          List.mem_singleton] at hv
        rcases hv with hv | rfl
        · exact hout _ hv
        · exact fun hP => hnotin (hsub hP)

theorem foldl_filterStep_inv (api : Str → Option (List Str)) {P0 : Finset Str} :
    ∀ (l : List (Nat × Record)) (st : FilterState), FilterInv P0 st →
      FilterInv P0 (l.foldl (filterStep api) st)
  | [], _, h => h
  | p :: rest, st, h =>
    foldl_filterStep_inv api rest _ (filterStep_inv api p h)

theorem runFilter_inv (api : Str → Option (List Str)) (P0 : Finset Str)
    (rows : List (Nat × Record)) : FilterInv P0 (runFilter api P0 rows) :=
  foldl_filterStep_inv api rows _
    ⟨List.nodup_nil, by simp, Finset.Subset.refl _, by simp⟩

theorem range_MAX_RETRIES : List.range MAX_RETRIES = [0, 1, 2] := by decide

theorem processOneBatch_fail (attempts : Nat → Option Response)
    (batch : List (Nat × Str × Str)) (st : RunState)
    (h : ∀ a, a < MAX_RETRIES → attempts a = none) :
    processOneBatch attempts batch st = st := by
  have h0 := h 0 (by decide)
  have h1 := h 1 (by decide)
  have h2 := h 2 (by decide)
  simp [processOneBatch, range_MAX_RETRIES, List.findSome?_cons, h0, h1, h2]

theorem foldl_processOneBatch_fail (oracle : Nat → Nat → Option Response)
    (hfail : ∀ i a, a < MAX_RETRIES → oracle i a = none) :
    ∀ (l : List (Nat × List (Nat × Str × Str))) (st : RunState),
      l.foldl (fun st p => processOneBatch (oracle p.1) p.2 st) st = st
  | [], _ => rfl
  | p :: rest, st => by
    rw [List.foldl_cons, processOneBatch_fail _ _ _ (hfail p.1),
      foldl_processOneBatch_fail oracle hfail rest st]

theorem runBatches_fail (oracle : Nat → Nat → Option Response)
    (hfail : ∀ i a, a < MAX_RETRIES → oracle i a = none)
    (batches : List (List (Nat × Str × Str))) :
    runBatches oracle batches = ⟨[], [], false⟩ :=
  foldl_processOneBatch_fail oracle hfail batches.enum ⟨[], [], false⟩

/-- The tag string the success branch computes for record id `idx` from a
response mapping. -/
def respTag (resp : Response) (idx : Nat) : Str :=
  _validate_and_format_tags ((resp.lookup (natToStr idx)).getD [])

theorem recordStep_foldl (resp : Response) :
    ∀ (batch : List (Nat × Str × Str)) (st : RunState),
      batch.foldl (recordStep resp) st =
        ⟨st.tagWrites ++ batch.map (fun it => (it.1, respTag resp it.1)),
         st.ledger ++ batch.map (fun it => (it.2.2, respTag resp it.1)),
         st.any_tagged⟩
  | [], st => by simp
  | it :: rest, st => by
    rw [List.foldl_cons, recordStep_foldl resp rest]
    simp [recordStep, respTag]

theorem filterStep_silent (api : Str → Option (List Str)) (st : FilterState)
    (p : Nat × Record) (h : _normalize_url p.2.url = []) :
    filterStep api st p = st := by
  rcases p with ⟨i, r⟩
  rcases hu : r.url with _ | u
  · simp [filterStep, hu]
  · rw [hu] at h
    simp only [filterStep, hu]
    by_cases hs : (pyStrip u).isEmpty
    · simp [hs]
    · simp [hs, h]

theorem foldl_filterStep_silent (api : Str → Option (List Str)) :
    ∀ (l : List (Nat × Record)) (st : FilterState),
      (∀ p ∈ l, _normalize_url p.2.url = []) →
      l.foldl (filterStep api) st = st
  | [], _, _ => rfl
  | p :: rest, st, h => by
    rw [List.foldl_cons, filterStep_silent api st p (h p (List.mem_cons_self p rest)),
      foldl_filterStep_silent api rest st (fun q hq => h q (List.mem_cons_of_mem p hq))]

/-! ## Claims -/

/-- C4: Tag Validator contract.  A tag appears in the validated list iff it
is the lower-cased trim of some string entry of the input and belongs to
the allow-list; the empty input formats to the empty string; the raw list
`["Automotive", "banana", "Lubricants", "automotive"]` validates to exactly
`"Brenntag/automotive,Brenntag/lubricants"`; non-string entries are
discarded. -/
theorem C4_validator_contract :
    (∀ (l : List JsonVal) (x : Str),
      x ∈ validTags l ↔
        ((∃ s, JsonVal.str s ∈ l ∧ pyStrip (pyLower s) = x) ∧ x ∈ ALLOWED_TAGS)) ∧
    _validate_and_format_tags [] = [] ∧
    _validate_and_format_tags
        [.str "Automotive".data, .str "banana".data, .str "Lubricants".data,
         .str "automotive".data] = "Brenntag/automotive,Brenntag/lubricants".data ∧
    _validate_and_format_tags [.other, .str "Automotive".data] = "Brenntag/automotive".data := by
  refine ⟨?_, by decide, by decide, by decide⟩
  intro l x
  show x ∈ pySortedSet _ ↔ _
  rw [mem_pySortedSet, List.mem_filter, List.mem_filterMap]
  constructor
  · rintro ⟨⟨a, hal, ha⟩, hcont⟩
    refine ⟨?_, List.mem_of_elem_eq_true hcont⟩
    cases a with
    | str s => exact ⟨s, hal, Option.some.inj ha⟩
    | other => simp at ha
  · rintro ⟨⟨s, hsl, hx⟩, hmem⟩
    exact ⟨⟨JsonVal.str s, hsl, by simp [hx]⟩, List.elem_eq_true_of_mem hmem⟩

/-- C5 counterexample: URL normalization is not idempotent.  A URL with two
trailing slashes loses only one per application, so applying
`_normalize_url` twice to `"https://x.de//"` gives `"https://x.de"` while
one application gives `"https://x.de/"`. -/
theorem C5_normalize_not_idempotent :
    _normalize_url (some (_normalize_url (some "https://x.de//".data))) ≠
      _normalize_url (some "https://x.de//".data) := by decide

/-- C5 (amended): one application of `_normalize_url` strips exactly one
trailing slash (so multiple trailing slashes leave one remaining), and
normalization is idempotent at `u` whenever the once-normalized URL is
itself whitespace-trimmed and does not end in a path separator. -/
theorem C5_normalize_idempotent_amended :
    _normalize_url (some "https://x.de//".data) = "https://x.de/".data ∧
    _normalize_url (some "https://x.de/".data) = "https://x.de".data ∧
    (∀ u : Str, pyStrip (_normalize_url (some u)) = _normalize_url (some u) →
      (_normalize_url (some u)).getLast? ≠ some '/' →
      _normalize_url (some (_normalize_url (some u))) = _normalize_url (some u)) := by
  refine ⟨by decide, by decide, ?_⟩
  intro u h1 h2
  generalize hv : _normalize_url (some u) = v at h1 h2 ⊢
  by_cases h0 : v = []
  · subst h0; decide
  · have hstep : _normalize_url (some v) =
        if v = [] then []
        else (if (pyStrip v).getLast? = some '/' then (pyStrip v).dropLast else pyStrip v) := rfl
    rw [hstep, if_neg h0, h1, if_neg h2]

/-- C6: the Tag Validator is order-independent (permuted raw label lists
format to the identical string) and its output is well-formed: every
emitted tag is an allow-list member and no tag is emitted twice. -/
theorem C6_validator_order_independent (l l2 : List JsonVal) (hperm : l.Perm l2) :
    _validate_and_format_tags l = _validate_and_format_tags l2 ∧
    (∀ t ∈ validTags l, t ∈ ALLOWED_TAGS) ∧ (validTags l).Nodup := by
  refine ⟨?_, ?_, nodup_pySortedSet _⟩
  · have h1 : validTags l = validTags l2 :=
      pySortedSet_perm ((hperm.filterMap _).filter _)
    rw [_validate_and_format_tags, _validate_and_format_tags, h1]
  · intro t ht
    have hkept := mem_pySortedSet.mp ht
    rcases List.mem_filter.mp hkept with ⟨_, hcont⟩
    exact List.mem_of_elem_eq_true hcont

/-- Witness for C6 at a concrete permutation pair. -/
theorem C6_witness :
    [JsonVal.str "Automotive".data, JsonVal.other].Perm
      [JsonVal.other, JsonVal.str "Automotive".data] ∧
    _validate_and_format_tags [JsonVal.str "Automotive".data, JsonVal.other] =
      _validate_and_format_tags [JsonVal.other, JsonVal.str "Automotive".data] ∧
    (validTags [JsonVal.str "Automotive".data, JsonVal.other]).Nodup := by
  have hp : [JsonVal.str "Automotive".data, JsonVal.other].Perm
      [JsonVal.other, JsonVal.str "Automotive".data] :=
    List.Perm.swap JsonVal.other (JsonVal.str "Automotive".data) []
  exact ⟨hp, (C6_validator_order_independent _ _ hp).1,
    (C6_validator_order_independent _ _ hp).2.2⟩

/-- Witness for C5 (amended) at `"https://x.de/"`, whose normal form
`"https://x.de"` is trimmed and slash-free. -/
theorem C5_witness :
    pyStrip (_normalize_url (some "https://x.de/".data)) =
      _normalize_url (some "https://x.de/".data) ∧
    (_normalize_url (some "https://x.de/".data)).getLast? ≠ some '/' ∧
    _normalize_url (some (_normalize_url (some "https://x.de/".data))) =
      _normalize_url (some "https://x.de/".data) :=
  ⟨by decide, by decide,
    C5_normalize_idempotent_amended.2.2 "https://x.de/".data (by decide) (by decide)⟩

/-- C8: the Content Selector returns the trimmed `content` whenever it is
non-empty, regardless of source type; for a YouTube record with empty
content, non-empty trimmed title and a fetched transcript longer than
`MAX_TRANSCRIPT_CHARS`, it returns title and truncated transcript joined by
a newline; when both parts are empty it returns the empty string. -/
theorem C8_content_selector (api : Str → Option (List Str)) :
    (∀ (r : Record) (c : Str), r.content = some c → (pyStrip c).isEmpty = false →
      get_content_for_tagging api r = pyStrip c) ∧
    (∀ (r : Record) (t s : Str),
      pyContainsSub (pyLower (r.url.getD [])) "youtube".data = true →
      (r.content = none ∨ ∃ c, r.content = some c ∧ (pyStrip c).isEmpty = true) →
      r.title = some t → (pyStrip t).isEmpty = false →
      _fetch_youtube_transcript api (some (r.url.getD [])) = some s →
      MAX_TRANSCRIPT_CHARS < s.length →
      get_content_for_tagging api r = pyStrip t ++ '\n' :: s.take MAX_TRANSCRIPT_CHARS) ∧
    (∀ r : Record,
      pyContainsSub (pyLower (r.url.getD [])) "youtube".data = true →
      (r.content = none ∨ ∃ c, r.content = some c ∧ (pyStrip c).isEmpty = true) →
      (r.title = none ∨ ∃ t, r.title = some t ∧ (pyStrip t).isEmpty = true) →
      _fetch_youtube_transcript api (some (r.url.getD [])) = none →
      get_content_for_tagging api r = []) := by
  refine ⟨?_, ?_, ?_⟩
  · intro r c hc hne
    simp [get_content_for_tagging, hc, hne]
  · intro r t s hyt hce ht htn hf hlen
    have htake : (s.take MAX_TRANSCRIPT_CHARS).isEmpty = false := by
      cases s with
      | nil => simp at hlen
      | cons c cs => simp [MAX_TRANSCRIPT_CHARS]
    rcases hce with hnone | ⟨c, hc, hcemp⟩
    · simp [get_content_for_tagging, hnone, hyt, ht, htn, hf, htake,
        List.intercalate, List.intersperse]
    · simp [get_content_for_tagging, hc, hcemp, hyt, ht, htn, hf, htake,
        List.intercalate, List.intersperse]
  · intro r hyt hce hte hf
    rcases hte with htnone | ⟨t, ht, htemp⟩ <;>
      rcases hce with hnone | ⟨c, hc, hcemp⟩ <;>
        simp_all [get_content_for_tagging, List.intercalate, List.intersperse]

/-- Witness for C8: a `youtube.com` record with empty content, title
`"Launch Event"` and a 501-character transcript. -/
theorem C8_witness :
    _fetch_youtube_transcript (fun _ => some [List.replicate 501 'a'])
        (some ((⟨some "https://www.youtube.com/watch?v=abc".data, none,
          some "Launch Event".data⟩ : Record).url.getD [])) =
      some (List.replicate 501 'a') ∧
    MAX_TRANSCRIPT_CHARS < (List.replicate 501 'a').length ∧
    get_content_for_tagging (fun _ => some [List.replicate 501 'a'])
        ⟨some "https://www.youtube.com/watch?v=abc".data, none, some "Launch Event".data⟩ =
      pyStrip "Launch Event".data ++ '\n' :: (List.replicate 501 'a').take MAX_TRANSCRIPT_CHARS :=
  ⟨by decide, by decide,
    (C8_content_selector _).2.1 _ "Launch Event".data (List.replicate 501 'a')
      (by decide) (Or.inl rfl) rfl (by decide) (by decide) (by decide)⟩

/-- C9 (implicit): the Content Selector's video branch is gated on the
substring `"youtube"` of the lower-cased URL, so a `youtu.be` short-link
record with empty content selects the empty string for every transcript
backend (no retrieval is attempted), even though `_get_video_id` itself
accepts the `youtu.be` shape and extracts the path segment. -/
theorem C9_youtube_gate (api : Str → Option (List Str)) (r : Record)
    (hshort : pyContainsSub (pyLower (r.url.getD [])) "youtu.be".data = true)
    (hyt : pyContainsSub (pyLower (r.url.getD [])) "youtube".data = false)
    (hce : r.content = none ∨ ∃ c, r.content = some c ∧ (pyStrip c).isEmpty = true) :
    get_content_for_tagging api r = [] ∧
    (∀ api2 : Str → Option (List Str), get_content_for_tagging api2 r = []) ∧
    _get_video_id (some "https://youtu.be/abc123".data) = some "abc123".data := by
  have key : ∀ a : Str → Option (List Str), get_content_for_tagging a r = [] := by
    intro a
    rcases hce with hnone | ⟨c, hc, hcemp⟩
    · simp [get_content_for_tagging, hyt, hnone]
    · simp [get_content_for_tagging, hyt, hc, List.isEmpty_iff.mp hcemp]
  exact ⟨key api, key, by decide⟩

/-- Witness for C9 at the record with URL `https://youtu.be/abc123` and no
content. -/
theorem C9_witness :
    pyContainsSub (pyLower ((⟨some "https://youtu.be/abc123".data, none, none⟩ :
      Record).url.getD [])) "youtu.be".data = true ∧
    pyContainsSub (pyLower ((⟨some "https://youtu.be/abc123".data, none, none⟩ :
      Record).url.getD [])) "youtube".data = false ∧
    get_content_for_tagging (fun _ => some ["transcript".data])
      ⟨some "https://youtu.be/abc123".data, none, none⟩ = [] :=
  ⟨by decide, by decide,
    (C9_youtube_gate (fun _ => some ["transcript".data])
      ⟨some "https://youtu.be/abc123".data, none, none⟩
      (by decide) (by decide) (Or.inl rfl)).1⟩

/-- C1: duplicate-prevention invariant of one run.  The URLs of the
enqueued rows are pairwise distinct and never from the ledger-seeded set,
the batches submitted to the classifier are exactly the enqueued rows
(contiguous slices), and of two input rows sharing a normalized URL only
the first is enqueued while the second increments the skip counter. -/
theorem C1_dedupe_invariant (api : Str → Option (List Str)) (P0 : Finset Str)
    (rows : List (Nat × Record)) :
    ((runFilter api P0 rows).rows_to_process.map (fun t => t.2.2)).Nodup ∧
    (∀ u ∈ (runFilter api P0 rows).rows_to_process.map (fun t => t.2.2), u ∉ P0) ∧
    (chunksOf BATCH_SIZE (runFilter api P0 rows).rows_to_process).flatten =
      (runFilter api P0 rows).rows_to_process ∧
    (∀ (i1 i2 : Nat) (r1 r2 : Record) (u1 u2 : Str),
      r1.url = some u1 → r2.url = some u2 →
      _normalize_url (some u2) = _normalize_url (some u1) →
      _normalize_url (some u1) ≠ [] → _normalize_url (some u1) ∉ P0 →
      runFilter api P0 [(i1, r1), (i2, r2)] =
        ⟨[(i1, get_content_for_tagging api r1, _normalize_url (some u1))], 1,
          insert (_normalize_url (some u1)) P0⟩) := by
  obtain ⟨hnd, hmem, hsub, hout⟩ := runFilter_inv api P0 rows
  refine ⟨hnd, hout, chunksOf_flatten BATCH_SIZE (by decide) _, ?_⟩
  intro i1 i2 r1 r2 u1 u2 h1 h2 heq hne hnot
  have hs1 : (pyStrip u1).isEmpty = false := strip_ne_of_normalize_ne hne
  have hs2 : (pyStrip u2).isEmpty = false :=
    strip_ne_of_normalize_ne (by rw [heq]; exact hne)
  have hie : (_normalize_url (some u1)).isEmpty = false := by simpa using hne
  have step1 : filterStep api ⟨[], 0, P0⟩ (i1, r1) =
      ⟨[(i1, get_content_for_tagging api r1, _normalize_url (some u1))], 0,
        insert (_normalize_url (some u1)) P0⟩ := by
    simp [filterStep, h1, hs1, hie, hnot]
  have step2 : filterStep api
      ⟨[(i1, get_content_for_tagging api r1, _normalize_url (some u1))], 0,
        insert (_normalize_url (some u1)) P0⟩ (i2, r2) =
      ⟨[(i1, get_content_for_tagging api r1, _normalize_url (some u1))], 1,
        insert (_normalize_url (some u1)) P0⟩ := by
    simp [filterStep, h2, hs2, heq, hie, Finset.mem_insert_self]
  show List.foldl (filterStep api) ⟨[], 0, P0⟩ [(i1, r1), (i2, r2)] = _
  rw [List.foldl_cons, step1, List.foldl_cons, step2, List.foldl_nil]

/-- Witness for C1's two-row clause: two rows normalizing to
`"https://x.de"`, the first enqueued, the second counted as skipped. -/
theorem C1_witness :
    _normalize_url (some "https://x.de/".data) ≠ [] ∧
    _normalize_url (some "https://x.de/".data) ∉ (∅ : Finset Str) ∧
    runFilter (fun _ => none) ∅
        [(0, ⟨some "https://x.de/".data, some "c".data, none⟩),
         (1, ⟨some "https://x.de".data, some "d".data, none⟩)] =
      ⟨[(0, get_content_for_tagging (fun _ => none)
            ⟨some "https://x.de/".data, some "c".data, none⟩,
          _normalize_url (some "https://x.de/".data))], 1,
        insert (_normalize_url (some "https://x.de/".data)) ∅⟩ :=
  ⟨by decide, by decide,
    (C1_dedupe_invariant (fun _ => none) ∅ []).2.2.2 0 1
      ⟨some "https://x.de/".data, some "c".data, none⟩
      ⟨some "https://x.de".data, some "d".data, none⟩
      "https://x.de/".data "https://x.de".data rfl rfl
      (by decide) (by decide) (by decide)⟩

/-- C2: give-up atomicity.  A batch whose classifier call fails on every
retry attempt leaves the run state unchanged: no ledger append and no
output-column write for any of its member records. -/
theorem C2_giveup_atomic (attempts : Nat → Option Response)
    (batch : List (Nat × Str × Str)) (st : RunState)
    (h : ∀ a, a < MAX_RETRIES → attempts a = none) :
    processOneBatch attempts batch st = st :=
  processOneBatch_fail attempts batch st h

/-- Witness for C2: a one-record batch with an always-failing classifier. -/
theorem C2_witness :
    processOneBatch (fun _ => none) [(0, "text".data, "https://x.de".data)]
      ⟨[], [], false⟩ = ⟨[], [], false⟩ :=
  C2_giveup_atomic (fun _ => none) [(0, "text".data, "https://x.de".data)]
    ⟨[], [], false⟩ (fun _ _ => rfl)

/-- C3 counterexample: a non-null but empty response mapping does not
record the batch members.  Python's `if results:` treats the empty dict as
falsy, so the batch gets zero ledger appends and zero output writes,
contradicting the claim that every non-null mapping leads to recording. -/
theorem C3_empty_mapping_not_recorded :
    (processOneBatch (fun _ => some []) [(0, "text".data, "https://x.de".data)]
      ⟨[], [], false⟩).ledger = [] ∧
    (processOneBatch (fun _ => some []) [(0, "text".data, "https://x.de".data)]
      ⟨[], [], false⟩).tagWrites = [] := by decide

/-- C3 (amended): whenever the retry loop yields a non-empty response
mapping, the orchestrator records every `(id, content, url)` member of the
batch — output-column write and ledger append with the validated tag
string, a missing id giving the empty raw list — and a record whose raw
labels are absent is still logged with the empty tag string. -/
theorem C3_success_records_all (attempts : Nat → Option Response)
    (batch : List (Nat × Str × Str)) (st : RunState) (resp : Response)
    (hfind : List.findSome? attempts (List.range MAX_RETRIES) = some resp)
    (hne : resp ≠ []) :
    processOneBatch attempts batch st =
      ⟨st.tagWrites ++ batch.map (fun it => (it.1, respTag resp it.1)),
       st.ledger ++ batch.map (fun it => (it.2.2, respTag resp it.1)),
       true⟩ ∧
    (∀ idx : Nat, resp.lookup (natToStr idx) = none → respTag resp idx = []) := by
  constructor
  · show (match List.findSome? attempts (List.range MAX_RETRIES) with
      | none => st
      | some resp => if resp.isEmpty then st
          else batch.foldl (recordStep resp) { st with any_tagged := true }) = _
    rw [hfind]
    show (if resp.isEmpty = true then st
      else batch.foldl (recordStep resp) { st with any_tagged := true }) = _
    rw [if_neg (by simpa using hne)]
    exact recordStep_foldl resp batch _
  · intro idx hl
    rw [respTag, hl]
    decide

/-- Witness for C3 (amended): a one-record batch whose response maps id 0
to `["Automotive"]`. -/
theorem C3_witness :
    List.findSome? (fun _ => some [(natToStr 0, [JsonVal.str "Automotive".data])])
        (List.range MAX_RETRIES) =
      some [(natToStr 0, [JsonVal.str "Automotive".data])] ∧
    processOneBatch (fun _ => some [(natToStr 0, [JsonVal.str "Automotive".data])])
        [(0, "text".data, "https://x.de".data)] ⟨[], [], false⟩ =
      ⟨[(0, "Brenntag/automotive".data)],
       [("https://x.de".data, "Brenntag/automotive".data)], true⟩ := by
  refine ⟨by decide, ?_⟩
  exact ((C3_success_records_all (fun _ => some [(natToStr 0, [JsonVal.str "Automotive".data])])
    [(0, "text".data, "https://x.de".data)] ⟨[], [], false⟩
    [(natToStr 0, [JsonVal.str "Automotive".data])] (by decide) (by decide)).1).trans
    (by decide)

/-- C7: per-record and per-batch failures never terminate the run.  With
every collaborator failing — transcript backend raising, log file
unreadable, classifier failing every attempt — the run still completes to
a well-defined degraded result (empty ledger contribution, no output
file); only the startup credential check aborts, and it accepts any
non-blank key. -/
theorem C7_failures_do_not_abort :
    _load_processed_urls none = ∅ ∧
    (∀ u : Option Str, _fetch_youtube_transcript (fun _ => none) u = none) ∧
    (∀ rows : List Record,
      mainRun (fun _ => none) (fun _ _ => none) none rows =
        ⟨runFilter (fun _ => none) ∅ rows.enum, ⟨[], [], false⟩, false⟩) ∧
    startupCheck none = Except.error "GEMINI_API_KEY fehlt. .env prüfen.".data ∧
    (∀ k : Str, (pyStrip k).isEmpty = false → startupCheck (some k) = Except.ok ()) := by
  refine ⟨rfl, ?_, ?_, rfl, ?_⟩
  · intro u
    show (match _get_video_id u with
      | none => none
      | some vid => match (fun _ : Str => (none : Option (List Str))) vid with
        | none => none
        | some segs =>
          let joined := pyStrip (List.intercalate [' '] segs)
          if joined = [] then none else some joined) = none
    cases _get_video_id u <;> rfl
  · intro rows
    have hEq : (∅ : Finset Str) = _load_processed_urls none := rfl
    rw [hEq]
    by_cases h : (runFilter (fun _ => none) (_load_processed_urls none)
        rows.enum).rows_to_process.isEmpty
    · simp [mainRun, h]
    · simp [mainRun, h, runBatches_fail (fun _ _ => none) (fun _ _ _ => rfl)]
  · intro k hk
    simp [startupCheck, hk]

/-- Witness for C7: a non-blank key passes the startup check and a
one-row run with failing collaborators completes with nothing tagged. -/
theorem C7_witness :
    (pyStrip "key123".data).isEmpty = false ∧
    startupCheck (some "key123".data) = Except.ok () ∧
    mainRun (fun _ => none) (fun _ _ => none) none
        [⟨some "https://x.de".data, some "c".data, none⟩] =
      ⟨runFilter (fun _ => none) ∅
        [⟨some "https://x.de".data, some "c".data, none⟩].enum, ⟨[], [], false⟩, false⟩ :=
  ⟨by decide, C7_failures_do_not_abort.2.2.2.2 "key123".data (by decide),
    C7_failures_do_not_abort.2.2.1 [⟨some "https://x.de".data, some "c".data, none⟩]⟩

/-- C10 (implicit): the skip counter counts only rows whose non-empty
normalized URL is already in the seen set; rows whose URL is missing,
blank, or normalizes to the empty string leave the filter state unchanged
(no count, no enqueue); and a run whose rows all lack usable URLs reports
a zero skip count and exits on the empty-queue path with no output file. -/
theorem C10_skip_count_semantics :
    (∀ (api : Str → Option (List Str)) (st : FilterState) (p : Nat × Record),
      _normalize_url p.2.url = [] → filterStep api st p = st) ∧
    (∀ (api : Str → Option (List Str)) (st : FilterState) (p : Nat × Record),
      (filterStep api st p).skipped ≠ st.skipped →
      _normalize_url p.2.url ≠ [] ∧ _normalize_url p.2.url ∈ st.processed_urls) ∧
    (∀ (api : Str → Option (List Str)) (oracle : Nat → Nat → Option Response)
      (log : Option (List (Option Str))) (rows : List Record),
      (∀ r ∈ rows, _normalize_url r.url = []) →
      mainRun api oracle log rows =
        ⟨⟨[], 0, _load_processed_urls log⟩, ⟨[], [], false⟩, false⟩) := by
  refine ⟨filterStep_silent, ?_, ?_⟩
  · intro api st p h
    rcases p with ⟨i, r⟩
    rcases hu : r.url with _ | u
    · rw [filterStep_silent api st (i, r) (by simp [_normalize_url, hu])] at h
      exact absurd rfl h
    · simp only [filterStep, hu] at h
      split_ifs at h with h1 h2 h3
      · exact absurd rfl h
      · exact ⟨by simpa using h3.1, h3.2⟩
      · exact absurd rfl h
      · exact absurd rfl h
  · intro api oracle log rows hall
    have hfs : runFilter api (_load_processed_urls log) rows.enum =
        ⟨[], 0, _load_processed_urls log⟩ :=
      foldl_filterStep_silent api rows.enum _
        (fun p hp => hall p.2 (List.snd_mem_of_mem_enum hp))
    simp [mainRun, hfs]

/-- Witness for C10: a blank-URL row leaves the filter state unchanged and
a run of URL-less rows ends on the empty-queue path with skip count 0. -/
theorem C10_witness :
    _normalize_url (⟨some "   ".data, none, none⟩ : Record).url = [] ∧
    filterStep (fun _ => none) ⟨[], 0, ∅⟩ (5, ⟨some "   ".data, none, none⟩) =
      ⟨[], 0, ∅⟩ ∧
    mainRun (fun _ => none) (fun _ _ => none) none
        [⟨none, some "c".data, none⟩, ⟨some "  ".data, none, none⟩] =
      ⟨⟨[], 0, _load_processed_urls none⟩, ⟨[], [], false⟩, false⟩ :=
  ⟨by decide,
    C10_skip_count_semantics.1 (fun _ => none) ⟨[], 0, ∅⟩
      (5, ⟨some "   ".data, none, none⟩) (by decide),
    C10_skip_count_semantics.2.2 (fun _ => none) (fun _ _ => none) none
      [⟨none, some "c".data, none⟩, ⟨some "  ".data, none, none⟩] (by decide)⟩

end Brenntag
